import Mathlib

/-!
Verification of the helmi service broker against its specification.

The Go sources are shallowly embedded: Go maps (`map[string]interface{}`)
become association lists over an inductive YAML-value type, Go strings become
Lean strings or character lists, machine integers become `Int`/`Nat`, and
fallible subprocess results become explicit `Option` arguments.  Each
definition is translated from the corresponding Go function; abstraction is
limited to external effects (template rendering, subprocess execution), which
become universally quantified inputs.
-/

set_option maxRecDepth 10000

namespace Helmi

/-! ## YAML values

Go's `interface{}` values decoded from YAML: scalars or nested string-keyed
maps.  `ValMap` is a mutually inductive association list so that structural
recursion over nested maps is available.  Go maps are unordered with unique
keys; the list order models Go's (irrelevant) iteration order, and theorems
that need uniqueness of keys assume `nodupKeys`. -/

mutual

inductive Val : Type where
  | vnull : Val
  | vbool : Bool → Val
  | vint : Int → Val
  | vfloat : String → Val
  | vstr : String → Val
  | vmap : ValMap → Val

inductive ValMap : Type where
  | nil : ValMap
  | cons : String → Val → ValMap → ValMap

end

deriving instance DecidableEq for Val, ValMap

/-- Go map read `m[k]` (comma-ok): first binding of `k`. -/
def lookup : ValMap → String → Option Val
  | .nil, _ => none
  | .cons k' v rest, k => if k' = k then some v else lookup rest k

/-- Go map write `m[k] = v`: replace the binding of `k`, or add one. -/
def setk : ValMap → String → Val → ValMap
  | .nil, k, v => .cons k v .nil
  | .cons k' v' rest, k, v =>
      if k' = k then .cons k v rest else .cons k' v' (setk rest k v)

/-- Whether `k` is a key of the map. -/
def hasKey : ValMap → String → Bool
  | .nil, _ => false
  | .cons k' _ rest, k => k' == k || hasKey rest k

/-- All keys distinct — an invariant of every Go map. -/
def nodupKeys : ValMap → Bool
  | .nil => true
  | .cons k _ rest => !hasKey rest k && nodupKeys rest

/-- Number of entries. -/
def mapLen : ValMap → Nat
  | .nil => 0
  | .cons _ _ rest => mapLen rest + 1

mutual

/-- The inner loop of `catalog.mergeMaps` (catalog.go:394-409): insert every
entry of `m` into the accumulator `res`; when both the incoming value and the
present value are maps they are merged recursively, otherwise the incoming
value overwrites.  The recursive call in the source is
`mergeMaps(resMap, valMap)`, which copies `resMap` into a fresh map and then
inserts `valMap`; since every map reachable in `result` has unique keys, that
copy is the identity (lemma `insertAll_nil_of_nodup` below), so the call is
embedded as `insertAll resMap valMap`. -/
def insertAll : ValMap → ValMap → ValMap
  | res, .nil => res
  | res, .cons k v rest => insertAll (setk res k (mergeVal (lookup res k) v)) rest

/-- The per-key merge decision of `catalog.mergeMaps`: recursive merge iff
both sides are maps, else the right value wins. -/
def mergeVal : Option Val → Val → Val
  | some (.vmap rm), .vmap vm => .vmap (insertAll rm vm)
  | _, v => v

end

/-- Variadic `catalog.mergeMaps(maps ...)`: fold all maps into an empty
result, left to right. -/
def mergeMaps (maps : List ValMap) : ValMap :=
  maps.foldl insertAll .nil

/-! ### Canonical form

Go maps are unordered, so two embedded maps denote the same Go map when they
agree up to reordering of keys (recursively).  `canon` sorts every map level
by key, giving a canonical representative used to state equalities between
concrete maps. -/

/-- Character-wise lexicographic order on keys (code-point order). -/
def keyLe : List Char → List Char → Bool
  | [], _ => true
  | _ :: _, [] => false
  | a :: as, b :: bs =>
      if a.toNat < b.toNat then true
      else if b.toNat < a.toNat then false
      else keyLe as bs

/-- Insert an entry into a key-sorted map. -/
def insSorted (k : String) (v : Val) : ValMap → ValMap
  | .nil => .cons k v .nil
  | .cons k' v' rest =>
      if keyLe k.data k'.data then .cons k v (.cons k' v' rest)
      else .cons k' v' (insSorted k v rest)

/-- Insertion sort of a map by key. -/
def sortMap : ValMap → ValMap
  | .nil => .nil
  | .cons k v rest => insSorted k v (sortMap rest)

mutual

/-- Canonical form of a value: every nested map sorted by key. -/
def canon : Val → Val
  | .vmap m => .vmap (sortMap (canonEntries m))
  | v => v

/-- Canonicalize the values of all entries, keeping the spine. -/
def canonEntries : ValMap → ValMap
  | .nil => .nil
  | .cons k v rest => .cons k (canon v) (canonEntries rest)

end

/-! ## Catalog entities (catalog.go)

The YAML-tagged fields of `catalog.Plan` and `catalog.Service`.  The two
compiled templates carried by a `Service` are external text/template values;
rendering them is abstracted, so they are not part of the structure.  The
`toStringMap` conversion (yaml.v2 interface-keyed maps to string-keyed maps)
is the identity here because embedded map keys are already strings. -/

structure Plan where
  Id : String
  Name : String
  Description : String
  Chart : String
  ChartVersion : String
  ChartValues : ValMap
  UserCredentials : ValMap
deriving DecidableEq

structure Service where
  Id : String
  Name : String
  Description : String
  Chart : String
  ChartVersion : String
  Plans : List Plan
deriving DecidableEq

/-- Namespace view from the cluster adapter (kubectl.go). -/
structure Namespace where
  Name : String
  IngressDomain : String

/-- Go `strings.EqualFold`, modelled as equality after character-wise
lower-casing (simple case folding; `Char.toLower` covers the ASCII range the
catalog uses). -/
def eqFold (a b : String) : Bool :=
  a.data.map Char.toLower == b.data.map Char.toLower

/-- Go `(s *Service) Plan(id)` (catalog.go:293-300): first plan whose id
matches under `strings.EqualFold`, nil pointer becomes `none`. -/
def Service.plan (s : Service) (id : String) : Option Plan :=
  s.Plans.find? (fun p => eqFold p.Id id)

/-- Reserved metadata keys (catalog.go:31-36). -/
def metadataKey : String := "__metadata"

def metadataServiceIdKey : String := "helmiServiceId"

def metadataPlanIdKey : String := "helmiPlanId"

def metadataIngressDomain : String := "helmiSvcDomain"

/-- The inner metadata entries injected by `Service.ChartValues`
(catalog.go:495-499). -/
def metadataInner (s : Service) (p : Plan) (ns : Namespace) : ValMap :=
  .cons metadataServiceIdKey (.vstr s.Id)
    (.cons metadataPlanIdKey (.vstr p.Id)
      (.cons metadataIngressDomain (.vstr ns.IngressDomain) .nil))

/-- The injected metadata map of `Service.ChartValues` (catalog.go:494-500). -/
def metadataMap (s : Service) (p : Plan) (ns : Namespace) : ValMap :=
  .cons metadataKey (.vmap (metadataInner s p ns)) .nil

/-- Go `(s *Service) ChartValues(...)` (catalog.go:462-507), with template
rendering and YAML decoding abstracted: `serviceValues` stands for the
decoded `chart-values` subtree of the rendered values template (an arbitrary
map, whatever the release name, parameters and context were); the merge and
metadata injection are the code's.  The error paths (render or decode
failure) return before this point, so every successful run is an instance. -/
def Service.chartValues (s : Service) (p : Plan) (ns : Namespace)
    (serviceValues : ValMap) : ValMap :=
  mergeMaps [serviceValues, p.ChartValues, metadataMap s p ns]

/-- Go `addServiceYaml` service-map update (catalog.go:277): the essential
collision behaviour `services[s.Id] = s.Service`.  YAML parsing and template
compilation of the three documents are abstracted; a parsed `Service` value
is taken as input. -/
def addService (services : List (String × Service)) (s : Service) :
    List (String × Service) :=
  match services with
  | [] => [(s.Id, s)]
  | (k, v) :: rest =>
      if k = s.Id then (k, s) :: rest else (k, v) :: addService rest s

/-- Lookup in the service map (Go map read). -/
def lookupService : List (String × Service) → String → Option Service
  | [], _ => none
  | (k, v) :: rest, id => if k = id then some v else lookupService rest id

/-! ## Cluster adapter types (kubectl.go) -/

/-- Go `kubectl.Service` (kubectl.go:30-36).  The field `Type` is renamed
`svcType` because `Type` is a Lean keyword; the port maps `map[int]int`
become integer association lists. -/
structure KService where
  svcType : String
  NodePorts : List (Int × Int)
  ClusterPorts : List (Int × Int)
  ExternalIP : String
  ClusterIP : String

/-- Go `kubectl.Node` (kubectl.go:17-23). -/
structure Node where
  Name : String
  Hostname : String
  InternalIP : String
  ExternalIP : String

/-- Go map read on an integer-keyed port map. -/
def lookupPort : List (Int × Int) → Int → Option Int
  | [], _ => none
  | (k, v) :: rest, p => if k = p then some v else lookupPort rest p

/-! ## Chart-engine adapter (helm.go) -/

/-- Go `helm.Status` (helm.go:94-105).  `DeploymentTime` is dropped: no
claim mentions it and wall-clock time has no shallow embedding.  The
`Services` Go map becomes an association list (iteration order only feeds a
commutative counter). -/
structure Status where
  Name : String
  Namespace : String
  IsFailed : Bool
  IsDeployed : Bool
  DesiredNodes : Int
  AvailableNodes : Int
  Services : List (String × KService)

/-- The pending counter loop of `Status.IsAvailable` (helm.go:108-113):
number of services of type LoadBalancer with an empty external IP. -/
def Status.pendingServices (s : Status) : Nat :=
  (s.Services.filter
    (fun kv => kv.2.svcType == "LoadBalancer" && kv.2.ExternalIP.length == 0)).length

/-- Go `(s *Status) IsAvailable()` (helm.go:107-119). -/
def Status.IsAvailable (s : Status) : Bool :=
  !s.IsFailed &&
  s.IsDeployed &&
  decide (s.DesiredNodes ≤ s.AvailableNodes) &&
  s.pendingServices == 0

/-- Go `strings.Contains(haystack, needle)` on character lists: the needle
occurs contiguously in the haystack. -/
def containsSub (needle : List Char) : List Char → Bool
  | [] => List.isPrefixOf needle []
  | c :: rest => List.isPrefixOf needle (c :: rest) || containsSub needle rest

/-- Go `helm.Exists(release)` (helm.go:121-138), as a function of the
subprocess result: `output` is the combined output (a character list) and
`cmdErr` the error value of the run (`none` for a zero exit).  Result is the
Go pair `(bool, error)`. -/
def helmExists (output : List Char) (cmdErr : Option String) :
    Bool × Option String :=
  if cmdErr = none ∧ output.length > 0 then (true, none)
  else if output.length > 0 ∧
      containsSub "not found".data (output.map Char.toLower) then
    (false, none)
  else (false, cmdErr)

/-! ## Credentials services view (catalog.go:531-604) -/

/-- Go `servicesVars` (catalog.go:531-534). -/
structure ServicesVars where
  services : List (String × KService)
  nodes : List Node

/-- Go map read on the services view. -/
def lookupKService : List (String × KService) → String → Option KService
  | [], _ => none
  | (k, v) :: rest, n => if k = n then some v else lookupKService rest n

/-- Go `mapPort(svc, port)` (catalog.go:546-566): the comma-ok pair
`(int, bool)` kept verbatim. -/
def mapPort (svc : KService) (port : Int) : Int × Bool :=
  if svc.svcType = "NodePort" then
    match lookupPort svc.NodePorts port with
    | some nodePort => (nodePort, true)
    | none => (0, false)
  else if svc.svcType = "LoadBalancer" then
    match lookupPort svc.NodePorts port with
    | some _ => (port, true)
    | none => (0, false)
  else if svc.svcType = "ClusterIP" then
    match lookupPort svc.ClusterPorts port with
    | some clusterPort => (clusterPort, true)
    | none => (0, false)
  else (0, false)

/-- Go `(s *servicesVars) Port(serviceName, port)` (catalog.go:568-577):
`strconv.Itoa` of the mapped port on success, empty string otherwise. -/
def ServicesVars.Port (s : ServicesVars) (serviceName : String) (port : Int) :
    String :=
  match lookupKService s.services serviceName with
  | some svc =>
      match mapPort svc port with
      | (mappedPort, true) => toString mappedPort
      | (_, false) => ""
  | none => ""

/-! ## Broker authentication (broker.go) -/

/-- Go `broker.Config` (broker.go:22-26); the listen address plays no role
in authentication. -/
structure Config where
  Username : String
  Password : String

/-- The `validCredentials` closure of `authHandler` (broker.go:297-314).
`noAuthRoute` is true exactly for the `/liveness` and `/readiness` routes
registered in `skipAuth` (broker.go:45-52); `basicAuth` is the parsed
Authorization header: `none` when `r.BasicAuth()` reports not-ok, otherwise
the supplied username/password pair. -/
def validCredentials (config : Config) (noAuthRoute : Bool)
    (basicAuth : Option (String × String)) : Bool :=
  if config.Username = "" ∨ config.Password = "" then true
  else if noAuthRoute then true
  else
    match basicAuth with
    | some (u, p) => if u = config.Username ∧ p = config.Password then true else false
    | none => false

/-! ## Release name derivation (release lifecycle, src/unnamed/part_006) -/

/-- Go helper `min(x, y int)` (part_006:616-621). -/
def goMin (x y : Nat) : Nat :=
  if x > y then y else x

/-- The characters of the release-name constant `prefix = "helmi"`. -/
def helmiChars : List Char := ['h', 'e', 'l', 'm', 'i']

/-- Go `getName(value)` (part_006:623-636) over character lists:
`strings.HasPrefix` becomes `List.isPrefixOf`, `strings.ToLower` maps
`Char.toLower`, the two `strings.Replace` calls remove the two characters,
and the byte slice `name[:min(14, len(name))]` is a character take (the two
agree on ASCII input, where bytes and characters coincide). -/
def getName (value : List Char) : List Char :=
  if List.isPrefixOf helmiChars value then value
  else
    let lowered := value.map Char.toLower
    let noDash := lowered.filter (fun c => c != '-')
    let name := noDash.filter (fun c => c != '_')
    helmiChars ++ name.take (goMin 14 name.length)

/-- The spec's normalization, in the spec's words: lower-case the id, then
remove every dash and underscore in one pass. -/
def normalizeSpec (value : List Char) : List Char :=
  (value.map Char.toLower).filter (fun c => c != '-' && c != '_')

/-! ## Concrete maps of the deep-merge scenario (spec section 8, scenario 2) -/

open Val in
/-- Scenario left operand: recursive-merge test input of the catalog tests. -/
def exampleLeft : ValMap :=
  .cons "a" (vint 1) (.cons "b" (vint 2)
    (.cons "bothmap" (vmap (.cons "five" (vint 5) (.cons "overwritten" vnull .nil)))
      (.cons "srcmap" (vfloat "0.0") .nil)))

open Val in
/-- Scenario right operand. -/
def exampleRight : ValMap :=
  .cons "a" (vint 3) (.cons "c" (vint 4)
    (.cons "bothmap" (vmap (.cons "six" (vint 6) (.cons "overwritten" (vbool true) .nil)))
      (.cons "srcmap" (vmap (.cons "seven" (vint 7) .nil)) .nil)))

open Val in
/-- Scenario expected result, written in the claim's key order. -/
def exampleMerged : ValMap :=
  .cons "a" (vint 3) (.cons "b" (vint 2) (.cons "c" (vint 4)
    (.cons "bothmap"
      (vmap (.cons "five" (vint 5) (.cons "six" (vint 6)
        (.cons "overwritten" (vbool true) .nil))))
      (.cons "srcmap" (vmap (.cons "seven" (vint 7) .nil)) .nil))))

/-- Concatenation of map spines, used to describe insertion of fresh keys. -/
def mapAppend : ValMap → ValMap → ValMap
  | .nil, m => m
  | .cons k v rest, m => .cons k v (mapAppend rest m)

/-! ## Association-map lemmas -/

/-- Induction on the spine of a map (the `induction` tactic cannot use the
mutual recursor directly). -/
theorem ValMap.spineInd {motive : ValMap → Prop} (hnil : motive .nil)
    (hcons : ∀ k v rest, motive rest → motive (.cons k v rest)) :
    ∀ m, motive m
  | .nil => hnil
  | .cons k v rest => hcons k v rest (ValMap.spineInd hnil hcons rest)

theorem lookup_setk_self (m : ValMap) (k : String) (v : Val) :
    lookup (setk m k v) k = some v := by
  induction m using ValMap.spineInd with
  | hnil => simp [setk, lookup]
  | hcons k' v' rest ih =>
      by_cases h : k' = k
      · simp [setk, h, lookup]
      · simp [setk, h, lookup, ih]

theorem lookup_setk_ne (m : ValMap) (k k' : String) (v : Val) (h : k' ≠ k) :
    lookup (setk m k' v) k = lookup m k := by
  induction m using ValMap.spineInd with
  | hnil => simp [setk, lookup, h]
  | hcons k'' v' rest ih =>
      by_cases h2 : k'' = k'
      · subst h2; simp [setk, lookup, h, ih]
      · simp [setk, h2, lookup, ih]

theorem lookup_none_of_hasKey_false (m : ValMap) (k : String)
    (h : hasKey m k = false) : lookup m k = none := by
  induction m using ValMap.spineInd with
  | hnil => rfl
  | hcons k' v rest ih =>
      simp only [hasKey, Bool.or_eq_false_iff, beq_eq_false_iff_ne] at h
      simp [lookup, h.1, ih h.2]

theorem hasKey_iff_lookup (m : ValMap) (k : String) :
    hasKey m k = true ↔ (lookup m k).isSome = true := by
  induction m using ValMap.spineInd with
  | hnil => simp [hasKey, lookup]
  | hcons k' v rest ih =>
      by_cases h : k' = k
      · simp [hasKey, lookup, h]
      · simp [hasKey, lookup, h, ih]

theorem mergeVal_none (v : Val) : mergeVal none v = v := by
  cases v <;> rfl

theorem mergeVal_of_not_vmap (ov : Option Val) (v : Val)
    (h : ∀ m : ValMap, v ≠ .vmap m) : mergeVal ov v = v := by
  cases ov with
  | none => exact mergeVal_none v
  | some w =>
      cases w <;> cases v <;> first
        | rfl
        | exact absurd rfl (h _)

/-- The lookup characterization of one insertion pass: for a unique-keyed
incoming map, the result at `k` is the incoming value merged over the
accumulator value. -/
theorem lookup_insertAll (m : ValMap) (hm : nodupKeys m = true)
    (res : ValMap) (k : String) :
    lookup (insertAll res m) k =
      match lookup m k with
      | none => lookup res k
      | some v => some (mergeVal (lookup res k) v) := by
  induction m using ValMap.spineInd generalizing res with
  | hnil => simp [insertAll, lookup]
  | hcons k' v rest ih =>
      simp only [nodupKeys, Bool.and_eq_true, Bool.not_eq_true'] at hm
      by_cases h : k' = k
      · subst h
        have hrest : lookup rest k' = none :=
          lookup_none_of_hasKey_false rest k' hm.1
        simp [insertAll, lookup, ih hm.2, hrest, lookup_setk_self]
      · simp only [insertAll, lookup, h, if_false, ih hm.2,
          lookup_setk_ne res k k' _ h]

theorem lookup_insertAll_nil (m : ValMap) (hm : nodupKeys m = true)
    (k : String) : lookup (insertAll .nil m) k = lookup m k := by
  rw [lookup_insertAll m hm .nil k]
  cases h : lookup m k with
  | none => rfl
  | some v => simp [lookup, mergeVal_none]

theorem setk_fresh (m : ValMap) (k : String) (v : Val)
    (h : hasKey m k = false) :
    setk m k v = mapAppend m (.cons k v .nil) := by
  induction m using ValMap.spineInd with
  | hnil => rfl
  | hcons k' v' rest ih =>
      simp only [hasKey, Bool.or_eq_false_iff, beq_eq_false_iff_ne] at h
      simp [setk, h.1, mapAppend, ih h.2]

theorem hasKey_mapAppend (m m' : ValMap) (k : String) :
    hasKey (mapAppend m m') k = (hasKey m k || hasKey m' k) := by
  induction m using ValMap.spineInd with
  | hnil => simp [mapAppend, hasKey]
  | hcons k' v rest ih => simp [mapAppend, hasKey, ih, Bool.or_assoc]

theorem lookup_mapAppend_fresh (m m' : ValMap) (k : String)
    (h : hasKey m k = false) :
    lookup (mapAppend m m') k = lookup m' k := by
  induction m using ValMap.spineInd with
  | hnil => simp [mapAppend]
  | hcons k' v rest ih =>
      simp only [hasKey, Bool.or_eq_false_iff, beq_eq_false_iff_ne] at h
      simp [mapAppend, lookup, h.1, ih h.2]

theorem mapAppend_nil (m : ValMap) : mapAppend m .nil = m := by
  induction m using ValMap.spineInd with
  | hnil => rfl
  | hcons k v rest ih => simp [mapAppend, ih]

theorem mapAppend_assoc (a b c : ValMap) :
    mapAppend (mapAppend a b) c = mapAppend a (mapAppend b c) := by
  induction a using ValMap.spineInd with
  | hnil => rfl
  | hcons k v rest ih => simp [mapAppend, ih]

/-- Inserting a map with fresh, unique keys appends its entries verbatim.
This is the Go copy `result := {}; result[k] = v for (k, v) in m`. -/
theorem insertAll_fresh (m : ValMap) (hm : nodupKeys m = true)
    (res : ValMap) (hdisj : ∀ k, hasKey m k = true → hasKey res k = false) :
    insertAll res m = mapAppend res m := by
  induction m using ValMap.spineInd generalizing res with
  | hnil => simp only [insertAll, mapAppend_nil]
  | hcons k v rest ih =>
      simp only [nodupKeys, Bool.and_eq_true, Bool.not_eq_true'] at hm
      have hres : hasKey res k = false := hdisj k (by simp [hasKey])
      have hlook : lookup res k = none := lookup_none_of_hasKey_false res k hres
      simp only [insertAll, hlook, mergeVal_none, setk_fresh res k v hres]
      rw [ih hm.2]
      · rw [mapAppend_assoc]; rfl
      · intro k' hk'
        rw [hasKey_mapAppend]
        have hne : k ≠ k' := by
          intro h; subst h; rw [hm.1] at hk'; exact Bool.false_ne_true hk'
        have : hasKey (ValMap.cons k v ValMap.nil) k' = false := by
          simp [hasKey, hne]
        rw [this, hdisj k' (by simp [hasKey, hk']), Bool.or_false]

/-- On a unique-keyed map, the copy performed by the recursive source call
`mergeMaps(resMap, valMap)` is the identity, which justifies embedding that
call as `insertAll resMap valMap`. -/
theorem insertAll_nil_of_nodup (m : ValMap) (hm : nodupKeys m = true) :
    insertAll .nil m = m := by
  have h := insertAll_fresh m hm .nil (fun k _ => rfl)
  simpa [mapAppend] using h

theorem mergeVal_vstr (ov : Option Val) (str : String) :
    mergeVal ov (.vstr str) = .vstr str := by
  cases ov with
  | none => rfl
  | some w => cases w <;> rfl

/-- Merging any prior value with an incoming map yields a map that preserves
every string entry of the incoming map. -/
theorem mergeVal_vmap_lookup (ov : Option Val) (inner : ValMap)
    (hn : nodupKeys inner = true) :
    ∃ mm : ValMap, mergeVal ov (.vmap inner) = .vmap mm ∧
      ∀ k str, lookup inner k = some (.vstr str) →
        lookup mm k = some (.vstr str) := by
  cases ov with
  | none => exact ⟨inner, rfl, fun k str h => h⟩
  | some w =>
      cases w with
      | vmap prior =>
          refine ⟨insertAll prior inner, rfl, fun k str h => ?_⟩
          rw [lookup_insertAll inner hn prior k, h]
          simp only [mergeVal_vstr]
      | vnull => exact ⟨inner, rfl, fun k str h => h⟩
      | vbool b => exact ⟨inner, rfl, fun k str h => h⟩
      | vint n => exact ⟨inner, rfl, fun k str h => h⟩
      | vfloat f => exact ⟨inner, rfl, fun k str h => h⟩
      | vstr t => exact ⟨inner, rfl, fun k str h => h⟩

theorem hasKey_eq_isSome (m : ValMap) (k : String) :
    hasKey m k = (lookup m k).isSome := by
  induction m using ValMap.spineInd with
  | hnil => rfl
  | hcons k' v rest ih =>
      by_cases h : k' = k
      · simp [hasKey, lookup, h]
      · simp [hasKey, lookup, h, ih]

theorem string_length_eq_zero_iff (s : String) : s.length = 0 ↔ s = "" := by
  cases s with
  | mk data => simp [String.length, String.ext_iff]

/-- The first match returned by `List.find?`, with the prefix of failures. -/
theorem find?_first {α : Type} (p : α → Bool) (l : List α) (a : α)
    (h : l.find? p = some a) :
    p a = true ∧ ∃ l1 l2, l = l1 ++ a :: l2 ∧ ∀ x ∈ l1, p x = false := by
  induction l with
  | nil => cases h
  | cons b rest ih =>
      rw [List.find?_cons] at h
      cases hb : p b with
      | true =>
          rw [hb] at h
          cases h
          exact ⟨hb, [], rest, rfl, by intro x hx; cases hx⟩
      | false =>
          rw [hb] at h
          obtain ⟨pa, l1, l2, hsplit, hfail⟩ := ih h
          refine ⟨pa, b :: l1, l2, by rw [hsplit]; rfl, ?_⟩
          intro x hx
          rcases List.mem_cons.mp hx with hx | hx
          · subst hx; exact hb
          · exact hfail x hx

/-! ## Claim theorems -/

/-- C1: a helm `Status` is available exactly when it is not failed, is
deployed, has at least as many available as desired nodes, and no service of
type LoadBalancer has an empty external IP; in particular availability
forces the pending-LoadBalancer count to zero. -/
theorem isAvailable_spec (s : Status) :
    (s.IsAvailable = true ↔
      (s.IsFailed = false ∧ s.IsDeployed = true ∧
        s.DesiredNodes ≤ s.AvailableNodes ∧
        ∀ kv ∈ s.Services,
          kv.2.svcType = "LoadBalancer" → kv.2.ExternalIP ≠ "")) ∧
    (s.IsAvailable = true → s.pendingServices = 0) := by
  have hpend : (s.pendingServices == 0) = true ↔
      ∀ kv ∈ s.Services,
        kv.2.svcType = "LoadBalancer" → kv.2.ExternalIP ≠ "" := by
    unfold Status.pendingServices
    rw [beq_iff_eq, List.length_eq_zero, List.filter_eq_nil_iff]
    constructor
    · intro h kv hkv htype hip
      have := h kv hkv
      simp [htype, hip] at this
    · intro h kv hkv
      by_cases htype : kv.2.svcType = "LoadBalancer"
      · have hip := h kv hkv htype
        have : kv.2.ExternalIP.length ≠ 0 := by
          intro h0
          exact hip ((string_length_eq_zero_iff _).mp h0)
        simp [htype, this]
      · simp [htype]
  constructor
  · unfold Status.IsAvailable
    rw [Bool.and_eq_true, Bool.and_eq_true, Bool.and_eq_true]
    rw [Bool.not_eq_true', decide_eq_true_iff, hpend]
    constructor
    · rintro ⟨⟨⟨hf, hd⟩, hn⟩, hp⟩
      exact ⟨hf, hd, hn, hp⟩
    · rintro ⟨hf, hd, hn, hp⟩
      exact ⟨⟨⟨hf, hd⟩, hn⟩, hp⟩
  · intro h
    unfold Status.IsAvailable at h
    rw [Bool.and_eq_true, Bool.and_eq_true, Bool.and_eq_true] at h
    exact beq_iff_eq.mp h.2

/-- C1 witness: a concrete available status with one LoadBalancer service
whose external IP is set. -/
theorem isAvailable_spec_witness :
    ({ Name := "helmiabc", Namespace := "default", IsFailed := false,
       IsDeployed := true, DesiredNodes := 1, AvailableNodes := 1,
       Services := [("db",
         { svcType := "LoadBalancer", NodePorts := [], ClusterPorts := [],
           ExternalIP := "3.3.3.3", ClusterIP := "" })] } : Status).pendingServices
      = 0 :=
  (isAvailable_spec _).2 rfl

/-- C2: for every successful `ChartValues` run, the result holds a top-level
map under the reserved metadata key whose service-id, plan-id and ingress
domain entries are exactly the provision inputs, whatever the rendered
values template or the plan overlay put under that key. -/
theorem chartValues_metadata (s : Service) (p : Plan) (ns : Namespace)
    (serviceValues : ValMap) :
    ∃ mm : ValMap,
      lookup (s.chartValues p ns serviceValues) metadataKey
        = some (.vmap mm) ∧
      lookup mm metadataServiceIdKey = some (.vstr s.Id) ∧
      lookup mm metadataPlanIdKey = some (.vstr p.Id) ∧
      lookup mm metadataIngressDomain = some (.vstr ns.IngressDomain) := by
  have hinner : nodupKeys (metadataInner s p ns) = true := rfl
  have hstep :
      Service.chartValues s p ns serviceValues
        = insertAll (insertAll (insertAll .nil serviceValues) p.ChartValues)
            (metadataMap s p ns) := rfl
  obtain ⟨mm, hmm, hprop⟩ :=
    mergeVal_vmap_lookup
      (lookup (insertAll (insertAll .nil serviceValues) p.ChartValues)
        metadataKey)
      (metadataInner s p ns) hinner
  refine ⟨mm, ?_, hprop _ _ rfl, hprop _ _ ?_, hprop _ _ ?_⟩
  · rw [hstep,
      lookup_insertAll (metadataMap s p ns) rfl _ metadataKey]
    have : lookup (metadataMap s p ns) metadataKey
        = some (.vmap (metadataInner s p ns)) := rfl
    rw [this]
    show some (mergeVal
      (lookup (insertAll (insertAll ValMap.nil serviceValues) p.ChartValues)
        metadataKey)
      (Val.vmap (metadataInner s p ns))) = some (Val.vmap mm)
    rw [hmm]
  · rfl
  · rfl

/-- C3: merging two unique-keyed maps keeps every key of either side, merges
recursively where both values are maps and otherwise takes the right value,
and on the concrete catalog-test maps produces exactly the expected result
(as unordered maps). -/
theorem mergeMaps_pairwise_spec :
    (∀ l r : ValMap, nodupKeys l = true → nodupKeys r = true →
      ∀ k : String,
        hasKey (mergeMaps [l, r]) k = (hasKey l k || hasKey r k) ∧
        lookup (mergeMaps [l, r]) k =
          (match lookup r k with
           | none => lookup l k
           | some rv => some (mergeVal (lookup l k) rv))) ∧
    canon (.vmap (mergeMaps [exampleLeft, exampleRight]))
      = canon (.vmap exampleMerged) := by
  constructor
  · intro l r hl hr k
    have hmm : mergeMaps [l, r] = insertAll (insertAll .nil l) r := rfl
    have hnil : lookup (insertAll .nil l) k = lookup l k :=
      lookup_insertAll_nil l hl k
    have hlook : lookup (mergeMaps [l, r]) k =
        (match lookup r k with
         | none => lookup l k
         | some rv => some (mergeVal (lookup l k) rv)) := by
      rw [hmm, lookup_insertAll r hr _ k, hnil]
    refine ⟨?_, hlook⟩
    rw [hasKey_eq_isSome, hasKey_eq_isSome, hasKey_eq_isSome, hlook]
    cases lookup r k <;> cases lookup l k <;> simp
  · rfl

/-- C3 witness: the right map's value wins at the colliding scalar key of
the concrete scenario. -/
theorem mergeMaps_pairwise_spec_witness :
    lookup (mergeMaps [exampleLeft, exampleRight]) "a" = some (Val.vint 3) :=
  ((mergeMaps_pairwise_spec.1 exampleLeft exampleRight rfl rfl "a").2).trans rfl

/-- C4: on a LoadBalancer cluster service found in the services view, `Port`
returns the requested port itself (not the mapped node port) when the port
is a NodePorts key, and the empty string when it is not. -/
theorem port_loadBalancer_spec (sv : ServicesVars) (name : String)
    (svc : KService) (p : Int)
    (hsvc : lookupKService sv.services name = some svc)
    (htype : svc.svcType = "LoadBalancer") :
    (∀ q : Int, lookupPort svc.NodePorts p = some q →
      sv.Port name p = toString p) ∧
    (lookupPort svc.NodePorts p = none → sv.Port name p = "") := by
  constructor
  · intro q hq
    have hm : mapPort svc p = (p, true) := by
      simp [mapPort, htype, hq]
    simp [ServicesVars.Port, hsvc, hm]
  · intro hq
    have hm : mapPort svc p = (0, false) := by
      simp [mapPort, htype, hq]
    simp [ServicesVars.Port, hsvc, hm]

/-- C4 witness: a LoadBalancer service with node-port map 9090 to 31009
resolves port 9090 to "9090" and an absent port to the empty string. -/
theorem port_loadBalancer_spec_witness :
    ServicesVars.Port
      ⟨[("lb", ⟨"LoadBalancer", [(9090, 31009)], [], "3.3.3.3", ""⟩)], []⟩
      "lb" 9090 = "9090" ∧
    ServicesVars.Port
      ⟨[("lb", ⟨"LoadBalancer", [(9090, 31009)], [], "3.3.3.3", ""⟩)], []⟩
      "lb" 1234 = "" :=
  ⟨(port_loadBalancer_spec
      ⟨[("lb", ⟨"LoadBalancer", [(9090, 31009)], [], "3.3.3.3", ""⟩)], []⟩
      "lb" ⟨"LoadBalancer", [(9090, 31009)], [], "3.3.3.3", ""⟩
      9090 rfl rfl).1 31009 rfl,
   (port_loadBalancer_spec
      ⟨[("lb", ⟨"LoadBalancer", [(9090, 31009)], [], "3.3.3.3", ""⟩)], []⟩
      "lb" ⟨"LoadBalancer", [(9090, 31009)], [], "3.3.3.3", ""⟩
      1234 rfl rfl).2 rfl⟩

/-- C5: `getName` keeps an id already starting with "helmi" unchanged;
otherwise it lower-cases the id, strips dashes and underscores, and prefixes
"helmi" to the first min(14, length) characters; the long concrete id maps
to "helmithisisatestnam", which has 19 characters. -/
theorem getName_spec :
    (∀ v : List Char,
      List.isPrefixOf helmiChars v = true → getName v = v) ∧
    (∀ v : List Char, List.isPrefixOf helmiChars v = false →
      getName v = helmiChars ++
        (normalizeSpec v).take (min 14 (normalizeSpec v).length)) ∧
    getName "this_is-a_test_name_which-is_pretty-long".data
      = "helmithisisatestnam".data ∧
    (getName "this_is-a_test_name_which-is_pretty-long".data).length = 19 := by
  have hmin : ∀ x y : Nat, goMin x y = min x y := by
    intro x y
    unfold goMin
    rw [Nat.min_def]
    split <;> split <;> omega
  have hfilter : ∀ l : List Char,
      List.filter (fun a => a != '_' && a != '-') l
        = List.filter (fun c => c != '-' && c != '_') l :=
    fun l => List.filter_congr (fun a _ => Bool.and_comm _ _)
  refine ⟨?_, ?_, rfl, rfl⟩
  · intro v h
    simp [getName, h]
  · intro v h
    simp only [getName, h, Bool.false_eq_true, if_false]
    rw [hmin, List.filter_filter, hfilter]
    rfl

/-- C5 witness: both branches at concrete inputs. -/
theorem getName_spec_witness :
    getName "helmiabc".data = "helmiabc".data ∧
    getName "Ab".data = "helmiab".data := by
  constructor
  · exact getName_spec.1 "helmiabc".data rfl
  · have h := getName_spec.2.1 "Ab".data rfl
    exact h.trans rfl

/-- The result of `getName` always starts with "helmi". -/
theorem helmi_isPrefixOf_getName (v : List Char) :
    List.isPrefixOf helmiChars (getName v) = true := by
  cases hb : List.isPrefixOf helmiChars v with
  | true => simp [getName, hb]
  | false =>
      simp only [getName, hb, Bool.false_eq_true, if_false]
      rw [List.isPrefixOf_iff_prefix]
      exact List.prefix_append _ _

/-- C6: release-name derivation is idempotent. -/
theorem getName_idempotent (v : List Char) :
    getName (getName v) = getName v := by
  have h := helmi_isPrefixOf_getName v
  generalize getName v = w at h ⊢
  simp [getName, h]

/-- C7 counterexample: a zero-exit run whose non-empty output contains
"not found" returns `(true, nil)`, not the `(false, nil)` the claim states
(the non-error branch is checked first in the source). -/
theorem helmExists_counterexample :
    helmExists "not found".data none = (true, none) ∧
    helmExists "not found".data none ≠ (false, none) := by
  constructor
  · decide
  · decide

/-- C7 amended: a zero-exit run with non-empty output yields `(true, nil)`
(even when the output contains "not found"); a zero-exit run with empty
output yields `(false, nil)`; a failing run whose output contains
"not found" case-insensitively yields `(false, nil)`; any other failing run
yields `(false, err)`. -/
theorem helmExists_spec (output : List Char) (cmdErr : Option String) :
    (cmdErr = none → output ≠ [] → helmExists output cmdErr = (true, none)) ∧
    (cmdErr = none → output = [] → helmExists output cmdErr = (false, none)) ∧
    (cmdErr ≠ none →
      containsSub "not found".data (output.map Char.toLower) = true →
      helmExists output cmdErr = (false, none)) ∧
    (cmdErr ≠ none →
      containsSub "not found".data (output.map Char.toLower) = false →
      helmExists output cmdErr = (false, cmdErr)) := by
  refine ⟨?_, ?_, ?_, ?_⟩
  · intro herr hout
    have hlen : output.length > 0 := List.length_pos.mpr hout
    unfold helmExists
    rw [if_pos ⟨herr, hlen⟩]
  · intro herr hout
    subst hout
    subst herr
    decide
  · intro herr hc
    have hout : output ≠ [] := by
      intro he
      subst he
      exact absurd hc (by decide)
    have hlen : output.length > 0 := List.length_pos.mpr hout
    unfold helmExists
    rw [if_neg (fun hand => herr hand.1), if_pos ⟨hlen, hc⟩]
  · intro herr hc
    unfold helmExists
    rw [if_neg (fun hand => herr hand.1),
      if_neg (fun hand => by rw [hc] at hand; exact Bool.false_ne_true hand.2)]

/-- C7 witness: a failing run mentioning "not found" maps to a clean
`(false, nil)`. -/
theorem helmExists_spec_witness :
    helmExists "Error: release foo not found".data (some "exit status 1")
      = (false, none) :=
  (helmExists_spec "Error: release foo not found".data
      (some "exit status 1")).2.2.1 (by decide) (by decide)

/-- C8 counterexample: with username "admin" and an empty password — not
both credentials empty — a request without any Basic credentials to a
protected route is still accepted, so authentication is not disabled
"exactly when both are empty". -/
theorem authHandler_counterexample :
    validCredentials ⟨"admin", ""⟩ false none = true ∧
    ¬("admin" = "" ∧ ("" : String) = "") := by
  constructor
  · decide
  · decide

/-- C8 amended: authentication is disabled (every request accepted) when the
username or the password is empty; when both are non-empty, requests to the
liveness/readiness routes are always accepted, and a request to any other
route is accepted exactly when it carries Basic credentials equal to the
configured pair. -/
theorem authHandler_spec (config : Config) (noAuthRoute : Bool)
    (creds : Option (String × String)) :
    ((config.Username = "" ∨ config.Password = "") →
      validCredentials config noAuthRoute creds = true) ∧
    (noAuthRoute = true →
      validCredentials config noAuthRoute creds = true) ∧
    (config.Username ≠ "" → config.Password ≠ "" → noAuthRoute = false →
      (validCredentials config noAuthRoute creds = true ↔
        creds = some (config.Username, config.Password))) := by
  refine ⟨?_, ?_, ?_⟩
  · intro h
    unfold validCredentials
    rw [if_pos h]
  · intro h
    subst h
    unfold validCredentials
    by_cases h : config.Username = "" ∨ config.Password = ""
    · rw [if_pos h]
    · rw [if_neg h, if_pos rfl]
  · intro hu hp hroute
    subst hroute
    unfold validCredentials
    rw [if_neg (by rintro (h | h) <;> [exact hu h; exact hp h]),
      if_neg Bool.false_ne_true]
    cases creds with
    | none => simp
    | some up =>
        obtain ⟨u, p⟩ := up
        show (if u = config.Username ∧ p = config.Password
            then true else false) = true ↔
          some (u, p) = some (config.Username, config.Password)
        by_cases hok : u = config.Username ∧ p = config.Password
        · rw [if_pos hok]
          simp [hok.1, hok.2]
        · rw [if_neg hok]
          simp only [Bool.false_eq_true, false_iff]
          intro hEq
          rw [Option.some_inj, Prod.mk.injEq] at hEq
          exact hok hEq

/-- C8 witness: with both credentials configured, the matching pair is
accepted on a protected route. -/
theorem authHandler_spec_witness :
    validCredentials ⟨"admin", "secret"⟩ false (some ("admin", "secret"))
      = true :=
  ((authHandler_spec ⟨"admin", "secret"⟩ false
      (some ("admin", "secret"))).2.2 (by decide) (by decide) rfl).mpr rfl

/-- C9 counterexample: two catalog files defining the same service id parse
into a map holding the service from the file processed second, not the
first. -/
theorem addService_counterexample :
    lookupService
      (addService (addService [] ⟨"x", "first", "", "", "", []⟩)
        ⟨"x", "second", "", "", "", []⟩) "x"
      = some ⟨"x", "second", "", "", "", []⟩ ∧
    (⟨"x", "second", "", "", "", []⟩ : Service)
      ≠ ⟨"x", "first", "", "", "", []⟩ := by
  constructor
  · rfl
  · decide

/-- C9 amended: on id collision the service parsed last wins — the map write
overwrites any earlier binding of the id and leaves other ids unchanged. -/
theorem addService_last_wins (services : List (String × Service))
    (s : Service) :
    lookupService (addService services s) s.Id = some s ∧
    (∀ id, id ≠ s.Id →
      lookupService (addService services s) id = lookupService services id) := by
  induction services with
  | nil =>
      constructor
      · simp [addService, lookupService]
      · intro id h
        simp [addService, lookupService, Ne.symm h]
  | cons kv rest ih =>
      obtain ⟨k, v⟩ := kv
      by_cases h : k = s.Id
      · subst h
        constructor
        · simp [addService, lookupService]
        · intro id hid
          simp [addService, lookupService, Ne.symm hid]
      · constructor
        · simp [addService, lookupService, h, ih.1]
        · intro id hid
          by_cases h2 : k = id
          · subst h2
            simp [addService, h, lookupService]
          · simp [addService, h, lookupService, h2, ih.2 id hid]

/-- C9 amended witness: overwrite and preservation at concrete inputs. -/
theorem addService_last_wins_witness :
    lookupService
      (addService [("x", ⟨"x", "first", "", "", "", []⟩)]
        ⟨"x", "second", "", "", "", []⟩) "y"
      = lookupService [("x", ⟨"x", "first", "", "", "", []⟩)] "y" :=
  (addService_last_wins [("x", ⟨"x", "first", "", "", "", []⟩)]
      ⟨"x", "second", "", "", "", []⟩).2 "y" (by decide)

/-- C10: plan lookup is case-insensitive: it returns the first plan whose id
matches the requested id under case folding, returns `none` exactly when no
plan matches, and is invariant under case changes of the requested id. -/
theorem plan_lookup_spec (s : Service) (id : String) :
    (s.plan id = none ↔ ∀ p ∈ s.Plans, eqFold p.Id id = false) ∧
    (∀ p : Plan, s.plan id = some p → eqFold p.Id id = true ∧
      ∃ l1 l2, s.Plans = l1 ++ p :: l2 ∧ ∀ q ∈ l1, eqFold q.Id id = false) ∧
    (∀ id' : String, eqFold id id' = true → s.plan id = s.plan id') := by
  refine ⟨?_, ?_, ?_⟩
  · unfold Service.plan
    rw [List.find?_eq_none]
    constructor
    · intro h p hp
      have := h p hp
      rwa [Bool.not_eq_true] at this
    · intro h p hp
      rw [Bool.not_eq_true]
      exact h p hp
  · intro p hp
    exact find?_first _ _ _ hp
  · intro id' hfold
    have h2 : id.data.map Char.toLower = id'.data.map Char.toLower := by
      unfold eqFold at hfold
      exact eq_of_beq hfold
    unfold Service.plan
    have : (fun p : Plan => eqFold p.Id id) = (fun p => eqFold p.Id id') := by
      funext p
      unfold eqFold
      rw [h2]
    rw [this]

/-- C10 witness: a stored id "Small" is found by the query "small" and by
"SMALL" alike. -/
theorem plan_lookup_spec_witness :
    Service.plan ⟨"svc", "", "", "", "",
        [⟨"Small", "", "", "", "", .nil, .nil⟩]⟩ "small"
      = Service.plan ⟨"svc", "", "", "", "",
        [⟨"Small", "", "", "", "", .nil, .nil⟩]⟩ "SMALL" :=
  (plan_lookup_spec ⟨"svc", "", "", "", "",
      [⟨"Small", "", "", "", "", .nil, .nil⟩]⟩ "small").2.2 "SMALL" (by decide)

end Helmi
